import Mathlib

/-!
Verification of the Game of Life implementation (`src/main.rs`).

The Rust program is embedded shallowly:
* `Board<const WIDTH, const HEIGHT>(pub [[bool; WIDTH]; HEIGHT])` becomes a
  `Grid := List (List Bool)` together with the well-formedness predicate
  `Board.wf W H g` saying the grid has `H` rows of `W` cells each
  (the const generics of the Rust type).
* Rust `i32` coordinates become `Int` (the predicate `isI32` delimits the
  representable range); the cast `x as usize` performed inside `get`/`set` is
  the sign-extending reduction modulo `2 ^ 64` (`i32ToUsize`), and the cast
  `x as i32` of a loop index is truncation modulo `2 ^ 32` into
  `[-2 ^ 31, 2 ^ 31)` (`usizeToI32`).
* The `u8` neighbour accumulator wraps modulo `2 ^ 8` at each addition.
* Mutation is explicit state passing: `Board.set` returns `Option Grid`
  (`some g'` when the Rust call writes and returns `Some(())`, `none` when it
  returns `None` and the board is untouched); `Board.setD` is the state of the
  board after a `set` call whose result is discarded.
* The `.unwrap()` inside `next` is modelled by `Option`: `Board.next?` returns
  `none` exactly when some iteration of the Rust loop would panic.
-/

set_option maxRecDepth 100000

namespace Life

/-- The `OFFSETS` constant: relative coordinates of the 8 neighbours. -/
def OFFSETS : List (Int × Int) :=
  [(-1, -1), (0, -1), (1, -1), (1, 0), (1, 1), (0, 1), (-1, 1), (-1, 0)]

/-- `x as usize` for `x : i32`: sign-extension then reinterpretation,
i.e. reduction modulo `2 ^ 64`. -/
def i32ToUsize (x : Int) : Nat := (x % (2 ^ 64 : Int)).toNat

/-- `n as i32` for `n : usize`: truncation modulo `2 ^ 32`, reinterpreted as a
signed value in `[-2 ^ 31, 2 ^ 31)`. -/
def usizeToI32 (n : Nat) : Int :=
  if (n % 2 ^ 32 : Nat) < 2 ^ 31 then (n % 2 ^ 32 : Nat) else (n % 2 ^ 32 : Nat) - 2 ^ 32

/-- `x` is representable as an `i32`. -/
def isI32 (x : Int) : Prop := -(2 ^ 31) ≤ x ∧ x < 2 ^ 31

/-- The backing storage of `Board<W, H>`: `H` rows of `W` booleans. -/
abbrev Grid := List (List Bool)

namespace Board

/-- The shape invariant of the Rust type `[[bool; W]; H]`. -/
def wf (W H : Nat) (g : Grid) : Prop :=
  g.length = H ∧ ∀ row ∈ g, row.length = W

/-- `Board::new`: `Self([[false; WIDTH]; HEIGHT])`. -/
def new (W H : Nat) : Grid := List.replicate H (List.replicate W false)

/-- Pure index-level cell lookup (used to state properties; `get` below is the
Rust function, which first casts its `i32` arguments). -/
def getN (g : Grid) (i j : Nat) : Option Bool :=
  (g.get? j).bind fun row => row.get? i

/-- `Board::get`: `self.0.get(y as usize).and_then(|row| row.get(x as usize)).map(|v| *v)`. -/
def get (g : Grid) (x y : Int) : Option Bool :=
  (g.get? (i32ToUsize y)).bind fun row => (row.get? (i32ToUsize x)).map fun v => v

/-- `Board::set`: `self.0.get_mut(y as usize).and_then(|row| row.get_mut(x as usize)).map(|v| *v = val)`.
`some g'` bundles the returned `Some(())` with the mutated state `g'`;
`none` is the `None` return, in which case no cell was written. -/
def set (g : Grid) (x y : Int) (v : Bool) : Option Grid :=
  (g.get? (i32ToUsize y)).bind fun row =>
    (row.get? (i32ToUsize x)).map fun _ =>
      g.set (i32ToUsize y) (row.set (i32ToUsize x) v)

/-- The board state after a `set` call whose `Option<()>` result is discarded
(as in `blit`): on `None` the board is unchanged. -/
def setD (g : Grid) (x y : Int) (v : Bool) : Grid :=
  (set g x y v).getD g

/-- The neighbour count of cell `(x, y)` of the new board, computed in `next`:
map each offset to the neighbour's state (`unwrap_or(false)` off the board),
then fold with the wrapping `u8` addition `acc + (v as u8)`. -/
def neighbors (g : Grid) (x y : Nat) : Nat :=
  (OFFSETS.map fun p => (get g (usizeToI32 x + p.1) (usizeToI32 y + p.2)).getD false).foldl
    (fun acc v => (acc + if v then 1 else 0) % 2 ^ 8) 0

/-- The `match (self.get(..).unwrap(), neighbors)` arms of `next`:
`(true, 2) | (_, 3) => true, _ => false`. -/
def rule (cur : Bool) (n : Nat) : Bool :=
  match cur, n with
  | true, 2 => true
  | _, 3 => true
  | _, _ => false

/-- One iteration of the inner loop of `next`: the value stored into cell
`(x, y)` of the new board, or `none` if the `.unwrap()` would panic. -/
def nextCell (g : Grid) (x y : Nat) : Option Bool :=
  (get g (usizeToI32 x) (usizeToI32 y)).map fun cur => rule cur (neighbors g x y)

/-- Sequencing of fallible iterations: stops at the first `none`
(the first panicking iteration). -/
def seqOption {α : Type} : List (Option α) → Option (List α)
  | [] => some []
  | o :: rest => o.bind fun a => (seqOption rest).map fun l => a :: l

/-- `Board::next`: iterate over the rows (`y`) and cells (`x`) of the fresh
`Self::new()` board — whose dimensions `W × H` are the const generics of the
type — filling each cell from the old board `g`; `none` iff some
`.unwrap()` panics. -/
def next? (W H : Nat) (g : Grid) : Option Grid :=
  seqOption ((List.range H).map fun y =>
    seqOption ((List.range W).map fun x => nextCell g x y))

/-- `Board::blit`: for every `(y_offset, row)` and `(x_offset, cell)` of
`other` (via `enumerate`), `self.set((x + x_offset as i32, y + y_offset as i32), cell)`,
discarding the `Option<()>` result. The `i32` additions are written as exact
`Int` additions; the theorems below restrict to inputs where they do not
overflow. -/
def blit (g : Grid) (x y : Int) (other : Grid) : Grid :=
  other.enum.foldl
    (fun acc yr =>
      yr.2.enum.foldl
        (fun acc2 xc => setD acc2 (x + usizeToI32 xc.1) (y + usizeToI32 yr.1) xc.2) acc)
    g

/-- The `Display` impl: for each row, write one character per cell
(`'X'` alive, `'_'` dead), then `'\n'`; the output stream is a `List Char`. -/
def render (g : Grid) : List Char :=
  g.foldl (fun out row =>
    (row.foldl (fun out2 c => out2 ++ [if c then 'X' else '_']) out) ++ ['\n']) []

end Board

/-- The `ACORN` constant, a `Board<7, 3>`. -/
def ACORN : Grid :=
  [[false, true, false, false, false, false, false],
   [false, false, false, true, false, false, false],
   [true, true, false, false, true, true, true]]

/-- The board `main` builds before entering its loop:
a fresh `Board<40, 40>` with `ACORN` blitted at `(17, 19)`. -/
def mainBoard : Grid := Board.blit (Board.new 40 40) 17 19 ACORN

/-- The seven alive cells of the Acorn pattern, as claimed. -/
def acornCells : List (Nat × Nat) :=
  [(1, 0), (3, 1), (0, 2), (1, 2), (4, 2), (5, 2), (6, 2)]

/-- A grid of dimensions `W × H` whose alive cells are exactly `cells`. -/
def gridOfCells (W H : Nat) (cells : List (Nat × Nat)) : Grid :=
  (List.range H).map fun y => (List.range W).map fun x => decide ((x, y) ∈ cells)

/-- The 10×10 board of claim C5: a 2×2 block at (4,4). -/
def blockBoard : Grid := gridOfCells 10 10 [(4, 4), (5, 4), (4, 5), (5, 5)]

/-- The alive cells of the horizontal phase of the blinker of claim C6. -/
def blinkerCellsH : List (Nat × Nat) := [(4, 5), (5, 5), (6, 5)]

/-- The alive cells of the vertical phase of the blinker. -/
def blinkerCellsV : List (Nat × Nat) := [(5, 4), (5, 5), (5, 6)]

/-- The claim's description of the neighbour count: the number of alive cells
among the 8 offset positions around `(x, y)`, an off-board position counting
as dead. -/
def specLiveNeighbors (g : Grid) (x y : Int) : Nat :=
  (OFFSETS.map fun p => (Board.get g (x + p.1) (y + p.2)).getD false).count true

/-- The grid a panic-free run of `next` fills in (proved below to be the value
of `Board.next?` on well-formed boards with dimensions below `2 ^ 31`). -/
def Board.nextD (W H : Nat) (g : Grid) : Grid :=
  (List.range H).map fun y => (List.range W).map fun x =>
    Board.rule ((Board.get g (usizeToI32 x) (usizeToI32 y)).getD false) (Board.neighbors g x y)

/-- The sequence of `(x, y, value)` arguments of the `set` calls `blit`
performs, in order. -/
def Board.writeList (x y : Int) (other : Grid) : List (Int × Int × Bool) :=
  (other.enum.map fun yr => yr.2.enum.map fun xc =>
    (x + usizeToI32 xc.1, y + usizeToI32 yr.1, xc.2)).flatten

/-! ### Helper lemmas about the integer casts -/

/-- On the `i32` range, `x as usize` is `x` itself when nonnegative and
`x + 2 ^ 64` when negative. -/
theorem i32ToUsize_spec (x : Int) (h : isI32 x) :
    (i32ToUsize x : Int) = if 0 ≤ x then x else x + 2 ^ 64 := by
  obtain ⟨h1, h2⟩ := h
  unfold i32ToUsize
  split
  · omega
  · omega

/-- Bounds comparison after the cast: for a dimension below `2 ^ 31`, the cast
index is in range exactly when the signed coordinate is. -/
theorem i32ToUsize_lt_iff (W : Nat) (hW : W < 2 ^ 31) (x : Int) (hx : isI32 x) :
    i32ToUsize x < W ↔ 0 ≤ x ∧ x < (W : Int) := by
  have h := i32ToUsize_spec x hx
  obtain ⟨h1, h2⟩ := hx
  split at h <;> omega

/-- The cast is injective on the `i32` range. -/
theorem i32ToUsize_inj (x y : Int) (hx : isI32 x) (hy : isI32 y)
    (h : i32ToUsize x = i32ToUsize y) : x = y := by
  have h1 := i32ToUsize_spec x hx
  have h2 := i32ToUsize_spec y hy
  obtain ⟨hx1, hx2⟩ := hx
  obtain ⟨hy1, hy2⟩ := hy
  split at h1 <;> split at h2 <;> omega

/-- `n as i32` is `n` itself below `2 ^ 31`. -/
theorem usizeToI32_small (n : Nat) (h : n < 2 ^ 31) : usizeToI32 n = (n : Int) := by
  unfold usizeToI32
  rw [Nat.mod_eq_of_lt (by omega)]
  rw [if_pos h]

/-- Round trip of a small loop index through `as i32` then `as usize`. -/
theorem i32ToUsize_usizeToI32 (n : Nat) (h : n < 2 ^ 31) :
    i32ToUsize (usizeToI32 n) = n := by
  rw [usizeToI32_small n h]
  unfold i32ToUsize
  omega

/-! ### Helper lemmas about grids -/

namespace Board

theorem get?_isSome_iff {α : Type} (l : List α) (n : Nat) :
    (l.get? n).isSome = true ↔ n < l.length := by
  rw [Option.isSome_iff_ne_none, ne_eq, List.get?_eq_none]
  omega

/-- `get` is `getN` at the cast indices. -/
theorem get_eq_getN (g : Grid) (x y : Int) :
    get g x y = getN g (i32ToUsize x) (i32ToUsize y) := by
  unfold get getN
  congr 1
  funext row
  cases row.get? (i32ToUsize x) with
  | none => rfl
  | some v => rfl

/-- On a well-formed grid, `getN` succeeds exactly on in-range indices. -/
theorem getN_isSome_iff (W H : Nat) (g : Grid) (hwf : wf W H g) (i j : Nat) :
    (getN g i j).isSome = true ↔ i < W ∧ j < H := by
  obtain ⟨hlen, hrow⟩ := hwf
  unfold getN
  cases hg : g.get? j with
  | none =>
    rw [List.get?_eq_none] at hg
    simp only [Option.none_bind, Option.isSome_none, Bool.false_eq_true, false_iff]
    omega
  | some row =>
    have hmem : row ∈ g := List.get?_mem hg
    obtain ⟨hjlt, -⟩ := List.get?_eq_some.mp hg
    simp only [Option.some_bind]
    rw [get?_isSome_iff, hrow row hmem]
    omega

/-- `get` succeeds exactly on signed coordinates inside `[0, W) × [0, H)`. -/
theorem get_isSome_iff_inRange (W H : Nat) (g : Grid) (x y : Int)
    (hwf : wf W H g) (hW : W < 2 ^ 31) (hH : H < 2 ^ 31)
    (hx : isI32 x) (hy : isI32 y) :
    (get g x y).isSome = true ↔ (0 ≤ x ∧ x < (W : Int)) ∧ (0 ≤ y ∧ y < (H : Int)) := by
  rw [get_eq_getN, getN_isSome_iff W H g hwf,
    i32ToUsize_lt_iff W hW x hx, i32ToUsize_lt_iff H hH y hy]

/-- The result of `set` is `Some` exactly when the one of `get` is: both do the
same bounds checks. -/
theorem set_isSome_eq (g : Grid) (x y : Int) (v : Bool) :
    (set g x y v).isSome = (get g x y).isSome := by
  unfold set get
  cases g.get? (i32ToUsize y) with
  | none => rfl
  | some row =>
    simp only [Option.some_bind]
    cases row.get? (i32ToUsize x) with
    | none => rfl
    | some b => rfl

/-- Pointwise effect of a `set` call whose result is discarded: cell
`(x, y)` now holds `v` if the write was in range, every other cell — and
everything when the write was out of range — is unchanged. -/
theorem getN_setD (g : Grid) (x y : Int) (v : Bool) (i j : Nat) :
    getN (setD g x y v) i j =
      if i = i32ToUsize x ∧ j = i32ToUsize y ∧ (getN g i j).isSome = true
      then some v
      else getN g i j := by
  unfold setD set
  split
  · rename_i hcond
    obtain ⟨hi, hj, hs⟩ := hcond
    subst hi
    subst hj
    unfold getN at hs ⊢
    cases hrow : g.get? (i32ToUsize y) with
    | none => rw [hrow] at hs; simp at hs
    | some row =>
      rw [hrow] at hs
      simp only [Option.some_bind] at hs ⊢
      cases hcell : row.get? (i32ToUsize x) with
      | none => rw [hcell] at hs; simp at hs
      | some b =>
        simp only [Option.map_some', Option.getD_some]
        obtain ⟨hjlt, -⟩ := List.get?_eq_some.mp hrow
        obtain ⟨hilt, -⟩ := List.get?_eq_some.mp hcell
        rw [List.get?_set_eq_of_lt _ hjlt]
        simp only [Option.some_bind]
        rw [List.get?_set_eq_of_lt _ hilt]
  · rename_i hcond
    cases hrow : g.get? (i32ToUsize y) with
    | none =>
      simp only [Option.none_bind, Option.getD_none]
    | some row =>
      simp only [Option.some_bind]
      cases hcell : row.get? (i32ToUsize x) with
      | none => simp only [Option.map_none', Option.getD_none]
      | some b =>
        simp only [Option.map_some', Option.getD_some]
        obtain ⟨hjlt, -⟩ := List.get?_eq_some.mp hrow
        have hsome : (getN g (i32ToUsize x) (i32ToUsize y)).isSome = true := by
          unfold getN
          rw [hrow]
          simp only [Option.some_bind]
          rw [hcell]
          rfl
        have hne : i ≠ i32ToUsize x ∨ j ≠ i32ToUsize y := by
          by_contra hc
          push_neg at hc
          apply hcond
          refine ⟨hc.1, hc.2, ?_⟩
          rw [hc.1, hc.2]
          exact hsome
        unfold getN
        by_cases hj : j = i32ToUsize y
        · subst hj
          rw [List.get?_set_eq_of_lt _ hjlt]
          rw [hrow]
          simp only [Option.some_bind]
          have hi : i ≠ i32ToUsize x := by
            rcases hne with h | h
            · exact h
            · exact absurd rfl h
          rw [List.get?_set_ne _ _ (Ne.symm hi)]
        · rw [List.get?_set_ne _ _ (Ne.symm hj)]

/-- `setD` never changes where `getN` succeeds. -/
theorem isSome_getN_setD (g : Grid) (x y : Int) (v : Bool) (i j : Nat) :
    (getN (setD g x y v) i j).isSome = (getN g i j).isSome := by
  rw [getN_setD]
  split
  · rename_i h
    rw [h.2.2]
    rfl
  · rfl

end Board

/-- C5: the 10×10 board whose only alive cells are the 2×2 block
(4,4), (5,4), (4,5), (5,5) is a still life: one `next` step succeeds and
returns exactly the same board. -/
theorem block_still_life : Board.next? 10 10 blockBoard = some blockBoard := by
  decide

/-- C10: `ACORN` is the 7×3 grid whose alive cells are exactly
(1,0), (3,1), (0,2), (1,2), (4,2), (5,2), (6,2), and the initial 40×40 board
of `main` has exactly those cells alive translated by (17, 19). -/
theorem acorn_and_main_board :
    ACORN = gridOfCells 7 3 acornCells ∧
    mainBoard = gridOfCells 40 40 (acornCells.map fun p => (p.1 + 17, p.2 + 19)) := by
  constructor
  · decide
  · decide

/-! ### The generation step -/

/-- The wrapping `u8` fold of `next` computes the plain count of alive values
as long as the list is short enough not to overflow. -/
theorem foldl_u8_count (l : List Bool) (acc : Nat) (h : acc + l.length < 2 ^ 8) :
    l.foldl (fun a v => (a + if v then 1 else 0) % 2 ^ 8) acc = acc + l.count true := by
  induction l generalizing acc with
  | nil => simp
  | cons b t ih =>
    simp only [List.foldl_cons]
    simp only [List.length_cons] at h
    have hb : (acc + if b then 1 else 0) % 2 ^ 8 = acc + if b then 1 else 0 := by
      apply Nat.mod_eq_of_lt
      cases b <;> simp <;> omega
    rw [hb, ih (acc + if b then 1 else 0) (by cases b <;> simp <;> omega)]
    cases b <;> simp [List.count_cons]
    omega

/-- The neighbour count computed by `next` equals the claim's description. -/
theorem neighbors_eq_spec (g : Grid) (x y : Nat) (hx : x < 2 ^ 31) (hy : y < 2 ^ 31) :
    Board.neighbors g x y = specLiveNeighbors g (x : Int) (y : Int) := by
  unfold Board.neighbors specLiveNeighbors
  rw [usizeToI32_small x hx, usizeToI32_small y hy]
  rw [foldl_u8_count _ 0 (by rw [List.length_map]; decide)]
  rw [Nat.zero_add]

/-- The match arms of `next` express the standard rule. -/
theorem rule_eq_decide (b : Bool) (n : Nat) :
    Board.rule b n = decide ((b = true ∧ n = 2) ∨ n = 3) := by
  cases b <;> rcases n with _ | _ | _ | _ | m <;> simp [Board.rule]

/-- On a well-formed board with in-range `(x, y)`, the `.unwrap()` of
`next` succeeds and the iteration produces the rule's value. -/
theorem nextCell_eq (W H : Nat) (g : Grid) (hwf : Board.wf W H g)
    (hW : W < 2 ^ 31) (hH : H < 2 ^ 31) (x y : Nat) (hx : x < W) (hy : y < H) :
    Board.nextCell g x y =
      some (Board.rule ((Board.get g (usizeToI32 x) (usizeToI32 y)).getD false)
        (Board.neighbors g x y)) := by
  unfold Board.nextCell
  have hcast : Board.get g (usizeToI32 x) (usizeToI32 y) = Board.getN g x y := by
    rw [Board.get_eq_getN, i32ToUsize_usizeToI32 x (by omega), i32ToUsize_usizeToI32 y (by omega)]
  have hsome : (Board.getN g x y).isSome = true :=
    (Board.getN_isSome_iff W H g hwf x y).mpr ⟨hx, hy⟩
  obtain ⟨b, hb⟩ := Option.isSome_iff_exists.mp hsome
  rw [hcast, hb]
  rfl

/-- Sequencing a list of already-successful computations succeeds with the
list of their values. -/
theorem seqOption_map_some {α β : Type} (f : β → α) (l : List β) :
    Board.seqOption (l.map fun b => some (f b)) = some (l.map f) := by
  induction l with
  | nil => rfl
  | cons b t ih =>
    simp only [List.map_cons, Board.seqOption, ih]
    rfl

/-- On a well-formed board with dimensions below `2 ^ 31`, `next` never
panics and computes `nextD`. -/
theorem next?_eq_nextD (W H : Nat) (g : Grid) (hwf : Board.wf W H g)
    (hW : W < 2 ^ 31) (hH : H < 2 ^ 31) :
    Board.next? W H g = some (Board.nextD W H g) := by
  unfold Board.next? Board.nextD
  have hrow : ∀ y ∈ List.range H,
      Board.seqOption ((List.range W).map fun x => Board.nextCell g x y) =
      some ((List.range W).map fun x =>
        Board.rule ((Board.get g (usizeToI32 x) (usizeToI32 y)).getD false)
          (Board.neighbors g x y)) := by
    intro y hy
    rw [List.map_congr_left fun x hxm =>
      nextCell_eq W H g hwf hW hH x y (List.mem_range.mp hxm) (List.mem_range.mp hy)]
    exact seqOption_map_some _ _
  rw [List.map_congr_left hrow]
  exact seqOption_map_some _ _

/-- Pointwise description of `nextD`. -/
theorem getN_nextD (W H : Nat) (g : Grid) (x y : Nat) (hx : x < W) (hy : y < H) :
    Board.getN (Board.nextD W H g) x y =
      some (Board.rule ((Board.get g (usizeToI32 x) (usizeToI32 y)).getD false)
        (Board.neighbors g x y)) := by
  unfold Board.nextD Board.getN
  rw [List.get?_map, List.get?_range hy]
  simp only [Option.map_some', Option.some_bind]
  rw [List.get?_map, List.get?_range hx]
  simp only [Option.map_some']

/-- C1: on every well-formed `W × H` board (dimensions below `2 ^ 31`), the
generation step succeeds, and cell `(x, y)` of the new board is alive iff
(the old cell is alive and has exactly 2 alive neighbours) or it has exactly
3 alive neighbours, where the neighbour count ranges over the 8 `OFFSETS`
positions with off-board positions counting as dead; every other combination
gives a dead cell. The new generation is a pure function of the old grid `g`. -/
theorem next_step_rule (W H : Nat) (g : Grid)
    (hwf : Board.wf W H g) (hW : W < 2 ^ 31) (hH : H < 2 ^ 31) :
    ∃ g', Board.next? W H g = some g' ∧ ∀ x y : Nat, x < W → y < H →
      Board.getN g' x y =
        some (decide ((Board.getN g x y = some true ∧
            specLiveNeighbors g (x : Int) (y : Int) = 2) ∨
          specLiveNeighbors g (x : Int) (y : Int) = 3)) := by
  refine ⟨Board.nextD W H g, next?_eq_nextD W H g hwf hW hH, ?_⟩
  intro x y hx hy
  rw [getN_nextD W H g x y hx hy]
  have hcast : Board.get g (usizeToI32 x) (usizeToI32 y) = Board.getN g x y := by
    rw [Board.get_eq_getN, i32ToUsize_usizeToI32 x (by omega), i32ToUsize_usizeToI32 y (by omega)]
  rw [hcast, neighbors_eq_spec g x y (by omega) (by omega), rule_eq_decide]
  obtain ⟨b, hb⟩ := Option.isSome_iff_exists.mp
    ((Board.getN_isSome_iff W H g hwf x y).mpr ⟨hx, hy⟩)
  rw [hb]
  congr 1
  rw [decide_eq_decide]
  cases b <;> simp

/-- Witness for C1 on the 2×2 board `[[true, true], [true, false]]`. -/
theorem next_step_rule_witness :
    ∃ g', Board.next? 2 2 [[true, true], [true, false]] = some g' ∧
      ∀ x y : Nat, x < 2 → y < 2 →
        Board.getN g' x y =
          some (decide ((Board.getN [[true, true], [true, false]] x y = some true ∧
              specLiveNeighbors [[true, true], [true, false]] (x : Int) (y : Int) = 2) ∨
            specLiveNeighbors [[true, true], [true, false]] (x : Int) (y : Int) = 3)) :=
  next_step_rule 2 2 [[true, true], [true, false]] ⟨by decide, by decide⟩ (by decide) (by decide)

/-- C9: during `next` on a well-formed `W × H` board, the lookup of the
current cell's own state succeeds at every in-range coordinate — the
`.unwrap()` never panics, so the whole step succeeds. -/
theorem next_unwrap_never_panics (W H : Nat) (g : Grid)
    (hwf : Board.wf W H g) (hW : W < 2 ^ 31) (hH : H < 2 ^ 31) :
    (∀ x y : Nat, x < W → y < H →
      (Board.get g (usizeToI32 x) (usizeToI32 y)).isSome = true ∧
      (Board.nextCell g x y).isSome = true) ∧
    (Board.next? W H g).isSome = true := by
  constructor
  · intro x y hx hy
    constructor
    · rw [Board.get_eq_getN, i32ToUsize_usizeToI32 x (by omega), i32ToUsize_usizeToI32 y (by omega)]
      exact (Board.getN_isSome_iff W H g hwf x y).mpr ⟨hx, hy⟩
    · rw [nextCell_eq W H g hwf hW hH x y hx hy]
      rfl
  · rw [next?_eq_nextD W H g hwf hW hH]
    rfl

/-- Witness for C9 on the 2×2 board `[[true, true], [true, false]]`. -/
theorem next_unwrap_never_panics_witness :
    (∀ x y : Nat, x < 2 → y < 2 →
      (Board.get [[true, true], [true, false]] (usizeToI32 x) (usizeToI32 y)).isSome = true ∧
      (Board.nextCell [[true, true], [true, false]] x y).isSome = true) ∧
    (Board.next? 2 2 [[true, true], [true, false]]).isSome = true :=
  next_unwrap_never_panics 2 2 [[true, true], [true, false]]
    ⟨by decide, by decide⟩ (by decide) (by decide)

/-- C7: the generation step is a deterministic pure function of the previous
grid alone: equal inputs give equal outputs, including across two steps. -/
theorem next_deterministic (W H : Nat) (b b' : Grid) (h : b = b') :
    Board.next? W H b = Board.next? W H b' ∧
    (Board.next? W H b).bind (Board.next? W H) =
      (Board.next? W H b').bind (Board.next? W H) := by
  subst h
  exact ⟨rfl, rfl⟩

/-- Witness for C7 at the 10×10 block board. -/
theorem next_deterministic_witness :
    Board.next? 10 10 blockBoard = Board.next? 10 10 blockBoard ∧
    (Board.next? 10 10 blockBoard).bind (Board.next? 10 10) =
      (Board.next? 10 10 blockBoard).bind (Board.next? 10 10) :=
  next_deterministic 10 10 blockBoard blockBoard rfl

/-! ### The blinker on an arbitrary board of dimensions at least 10×10 -/

/-- `gridOfCells` builds a well-formed `W × H` grid. -/
theorem gridOfCells_wf (W H : Nat) (cells : List (Nat × Nat)) :
    Board.wf W H (gridOfCells W H cells) := by
  constructor
  · unfold gridOfCells
    rw [List.length_map, List.length_range]
  · intro row hrow
    unfold gridOfCells at hrow
    rw [List.mem_map] at hrow
    obtain ⟨y, -, rfl⟩ := hrow
    rw [List.length_map, List.length_range]

/-- Pointwise description of `gridOfCells`. -/
theorem getN_gridOfCells (W H : Nat) (cells : List (Nat × Nat)) (x y : Nat)
    (hx : x < W) (hy : y < H) :
    Board.getN (gridOfCells W H cells) x y = some (decide ((x, y) ∈ cells)) := by
  unfold gridOfCells Board.getN
  rw [List.get?_map, List.get?_range hy]
  simp only [Option.map_some', Option.some_bind]
  rw [List.get?_map, List.get?_range hx]
  simp only [Option.map_some']

/-- `nextD` builds a well-formed `W × H` grid. -/
theorem nextD_wf (W H : Nat) (g : Grid) : Board.wf W H (Board.nextD W H g) := by
  constructor
  · unfold Board.nextD
    rw [List.length_map, List.length_range]
  · intro row hrow
    unfold Board.nextD at hrow
    rw [List.mem_map] at hrow
    obtain ⟨y, -, rfl⟩ := hrow
    rw [List.length_map, List.length_range]

/-- Two well-formed `W × H` grids with the same cells are equal. -/
theorem grid_ext (W H : Nat) (g₁ g₂ : Grid)
    (h₁ : Board.wf W H g₁) (h₂ : Board.wf W H g₂)
    (h : ∀ i j : Nat, i < W → j < H → Board.getN g₁ i j = Board.getN g₂ i j) :
    g₁ = g₂ := by
  obtain ⟨hl₁, hr₁⟩ := h₁
  obtain ⟨hl₂, hr₂⟩ := h₂
  apply List.ext_get?
  intro j
  by_cases hj : j < H
  · obtain ⟨row₁, hrow₁⟩ := Option.isSome_iff_exists.mp
      ((Board.get?_isSome_iff g₁ j).mpr (by omega))
    obtain ⟨row₂, hrow₂⟩ := Option.isSome_iff_exists.mp
      ((Board.get?_isSome_iff g₂ j).mpr (by omega))
    have e₁ : row₁.length = W := hr₁ row₁ (List.get?_mem hrow₁)
    have e₂ : row₂.length = W := hr₂ row₂ (List.get?_mem hrow₂)
    rw [hrow₁, hrow₂]
    congr 1
    apply List.ext_get?
    intro i
    by_cases hi : i < W
    · have hc := h i j hi hj
      unfold Board.getN at hc
      rw [hrow₁, hrow₂] at hc
      simpa using hc
    · rw [List.get?_eq_none.mpr (by omega), List.get?_eq_none.mpr (by omega)]
  · rw [List.get?_eq_none.mpr (by omega), List.get?_eq_none.mpr (by omega)]

/-- The eight offsets all lie in `[-1, 1] × [-1, 1]`. -/
theorem OFFSETS_bounds : ∀ p ∈ OFFSETS, -1 ≤ p.1 ∧ p.1 ≤ 1 ∧ -1 ≤ p.2 ∧ p.2 ≤ 1 := by
  decide

/-- On a `gridOfCells` board whose cells all lie on the board, a signed
lookup-with-default reads exactly membership of the coordinate in the cell
list (off-board coordinates are never in the list). -/
theorem getD_get_gridOfCells (W H : Nat) (hW : W < 2 ^ 31) (hH : H < 2 ^ 31)
    (cells : List (Nat × Nat)) (hin : ∀ c ∈ cells, c.1 < W ∧ c.2 < H)
    (u v : Int) (hu : isI32 u) (hv : isI32 v) :
    (Board.get (gridOfCells W H cells) u v).getD false =
      decide (∃ c ∈ cells, (c.1 : Int) = u ∧ (c.2 : Int) = v) := by
  by_cases hr : (0 ≤ u ∧ u < (W : Int)) ∧ (0 ≤ v ∧ v < (H : Int))
  · have hui : i32ToUsize u = u.toNat := by
      have hs := i32ToUsize_spec u hu
      rw [if_pos hr.1.1] at hs
      omega
    have hvi : i32ToUsize v = v.toNat := by
      have hs := i32ToUsize_spec v hv
      rw [if_pos hr.2.1] at hs
      omega
    rw [Board.get_eq_getN, hui, hvi,
      getN_gridOfCells W H cells _ _ (by omega) (by omega)]
    simp only [Option.getD_some]
    rw [decide_eq_decide]
    constructor
    · intro hmem
      exact ⟨(u.toNat, v.toNat), hmem, by simp; omega, by simp; omega⟩
    · rintro ⟨⟨c1, c2⟩, hc, hc1, hc2⟩
      have e1 : c1 = u.toNat := by simp at hc1; omega
      have e2 : c2 = v.toNat := by simp at hc2; omega
      subst e1
      subst e2
      exact hc
  · have hnone : Board.get (gridOfCells W H cells) u v = none := by
      rw [← Option.not_isSome_iff_eq_none,
        Board.get_isSome_iff_inRange W H _ u v (gridOfCells_wf W H cells) hW hH hu hv]
      exact hr
    rw [hnone]
    simp only [Option.getD_none]
    symm
    rw [decide_eq_false_iff_not]
    rintro ⟨⟨c1, c2⟩, hc, hc1, hc2⟩
    have hb := hin (c1, c2) hc
    have hb1 : c1 < W := hb.1
    have hb2 : c2 < H := hb.2
    simp at hc1 hc2
    omega

/-- If the life rule maps membership in `cells` to membership in `cells'`
pointwise, then `next` maps the `cells` board to the `cells'` board. -/
theorem nextD_gridOfCells (W H : Nat) (hW : W < 2 ^ 31) (hH : H < 2 ^ 31)
    (cells cells' : List (Nat × Nat)) (hin : ∀ c ∈ cells, c.1 < W ∧ c.2 < H)
    (hstep : ∀ x y : Nat,
      Board.rule (decide ((x, y) ∈ cells)) ((OFFSETS.map fun p =>
        decide (∃ c ∈ cells, (c.1 : Int) = (x : Int) + p.1 ∧ (c.2 : Int) = (y : Int) + p.2)).count true)
      = decide ((x, y) ∈ cells')) :
    Board.nextD W H (gridOfCells W H cells) = gridOfCells W H cells' := by
  apply grid_ext W H _ _ (nextD_wf W H _) (gridOfCells_wf W H cells')
  intro x y hx hy
  rw [getN_nextD W H (gridOfCells W H cells) x y hx hy,
    getN_gridOfCells W H cells' x y hx hy]
  congr 1
  have hcast : Board.get (gridOfCells W H cells) (usizeToI32 x) (usizeToI32 y)
      = Board.getN (gridOfCells W H cells) x y := by
    rw [Board.get_eq_getN, i32ToUsize_usizeToI32 x (by omega), i32ToUsize_usizeToI32 y (by omega)]
  rw [hcast, getN_gridOfCells W H cells x y hx hy]
  simp only [Option.getD_some]
  rw [neighbors_eq_spec _ x y (by omega) (by omega)]
  unfold specLiveNeighbors
  rw [List.map_congr_left fun p hp => by
    have hb := OFFSETS_bounds p hp
    exact getD_get_gridOfCells W H hW hH cells hin ((x : Int) + p.1) ((y : Int) + p.2)
      ⟨by omega, by omega⟩ ⟨by omega, by omega⟩]
  exact hstep x y

/-- One cell of the step taking the horizontal blinker to the vertical one. -/
theorem blinker_cell_step_HV (x y : Nat) :
    Board.rule (decide ((x, y) ∈ blinkerCellsH)) ((OFFSETS.map fun p =>
      decide (∃ c ∈ blinkerCellsH, (c.1 : Int) = (x : Int) + p.1 ∧ (c.2 : Int) = (y : Int) + p.2)).count true)
    = decide ((x, y) ∈ blinkerCellsV) := by
  by_cases hbox : 3 ≤ x ∧ x ≤ 7 ∧ 3 ≤ y ∧ y ≤ 7
  · obtain ⟨h1, h2, h3, h4⟩ := hbox
    interval_cases x <;> interval_cases y <;> decide
  · have hcount : (OFFSETS.map fun p =>
        decide (∃ c ∈ blinkerCellsH, (c.1 : Int) = (x : Int) + p.1 ∧ (c.2 : Int) = (y : Int) + p.2)).count true = 0 := by
      rw [List.count_eq_zero]
      intro hmem
      rw [List.mem_map] at hmem
      obtain ⟨p, hp, hdec⟩ := hmem
      rw [decide_eq_true_eq] at hdec
      obtain ⟨c, hc, e1, e2⟩ := hdec
      simp only [blinkerCellsH, List.mem_cons, List.not_mem_nil, or_false] at hc
      rcases hc with rfl | rfl | rfl <;> fin_cases hp <;> simp at e1 e2 <;> omega
    have hown : decide ((x, y) ∈ blinkerCellsH) = false := by
      apply decide_eq_false
      simp only [blinkerCellsH, List.mem_cons, List.not_mem_nil, or_false, Prod.mk.injEq]
      omega
    rw [hcount, hown]
    symm
    apply decide_eq_false
    simp only [blinkerCellsV, List.mem_cons, List.not_mem_nil, or_false, Prod.mk.injEq]
    omega

/-- One cell of the step taking the vertical blinker back to the horizontal
one. -/
theorem blinker_cell_step_VH (x y : Nat) :
    Board.rule (decide ((x, y) ∈ blinkerCellsV)) ((OFFSETS.map fun p =>
      decide (∃ c ∈ blinkerCellsV, (c.1 : Int) = (x : Int) + p.1 ∧ (c.2 : Int) = (y : Int) + p.2)).count true)
    = decide ((x, y) ∈ blinkerCellsH) := by
  by_cases hbox : 3 ≤ x ∧ x ≤ 7 ∧ 3 ≤ y ∧ y ≤ 7
  · obtain ⟨h1, h2, h3, h4⟩ := hbox
    interval_cases x <;> interval_cases y <;> decide
  · have hcount : (OFFSETS.map fun p =>
        decide (∃ c ∈ blinkerCellsV, (c.1 : Int) = (x : Int) + p.1 ∧ (c.2 : Int) = (y : Int) + p.2)).count true = 0 := by
      rw [List.count_eq_zero]
      intro hmem
      rw [List.mem_map] at hmem
      obtain ⟨p, hp, hdec⟩ := hmem
      rw [decide_eq_true_eq] at hdec
      obtain ⟨c, hc, e1, e2⟩ := hdec
      simp only [blinkerCellsV, List.mem_cons, List.not_mem_nil, or_false] at hc
      rcases hc with rfl | rfl | rfl <;> fin_cases hp <;> simp at e1 e2 <;> omega
    have hown : decide ((x, y) ∈ blinkerCellsV) = false := by
      apply decide_eq_false
      simp only [blinkerCellsV, List.mem_cons, List.not_mem_nil, or_false, Prod.mk.injEq]
      omega
    rw [hcount, hown]
    symm
    apply decide_eq_false
    simp only [blinkerCellsH, List.mem_cons, List.not_mem_nil, or_false, Prod.mk.injEq]
    omega

/-- C6: on every board of dimensions `W × H` with `W, H ≥ 10` (and below
`2 ^ 31`) whose only alive cells are the horizontal blinker (4,5), (5,5),
(6,5), one generation step yields the board whose only alive cells are the
vertical line (5,4), (5,5), (5,6), and a second step returns it to the
horizontal form. -/
theorem blinker_period_two (W H : Nat) (hW10 : 10 ≤ W) (hH10 : 10 ≤ H)
    (hW : W < 2 ^ 31) (hH : H < 2 ^ 31) :
    Board.next? W H (gridOfCells W H blinkerCellsH) = some (gridOfCells W H blinkerCellsV) ∧
    Board.next? W H (gridOfCells W H blinkerCellsV) = some (gridOfCells W H blinkerCellsH) := by
  have hinH : ∀ c ∈ blinkerCellsH, c.1 < W ∧ c.2 < H := by
    intro c hc
    fin_cases hc <;> exact ⟨by omega, by omega⟩
  have hinV : ∀ c ∈ blinkerCellsV, c.1 < W ∧ c.2 < H := by
    intro c hc
    fin_cases hc <;> exact ⟨by omega, by omega⟩
  constructor
  · rw [next?_eq_nextD W H _ (gridOfCells_wf W H blinkerCellsH) hW hH]
    rw [nextD_gridOfCells W H hW hH blinkerCellsH blinkerCellsV hinH
      fun x y => blinker_cell_step_HV x y]
  · rw [next?_eq_nextD W H _ (gridOfCells_wf W H blinkerCellsV) hW hH]
    rw [nextD_gridOfCells W H hW hH blinkerCellsV blinkerCellsH hinV
      fun x y => blinker_cell_step_VH x y]

/-- Witness for C6 at the smallest claimed size, 10×10. -/
theorem blinker_period_two_witness :
    Board.next? 10 10 (gridOfCells 10 10 blinkerCellsH) = some (gridOfCells 10 10 blinkerCellsV) ∧
    Board.next? 10 10 (gridOfCells 10 10 blinkerCellsV) = some (gridOfCells 10 10 blinkerCellsH) :=
  blinker_period_two 10 10 (by decide) (by decide) (by decide) (by decide)

/-! ### Rendering -/

/-- Inner loop of the `Display` impl: one row appends its cell characters. -/
theorem foldl_row_chars (row : List Bool) (out : List Char) :
    row.foldl (fun out2 c => out2 ++ [if c then 'X' else '_']) out =
      out ++ row.map fun c => if c then 'X' else '_' := by
  induction row generalizing out with
  | nil => simp
  | cons c t ih =>
    simp only [List.foldl_cons, List.map_cons]
    rw [ih]
    simp

/-- Outer loop of the `Display` impl, with an arbitrary already-written
prefix. -/
theorem render_foldl (g : Grid) (out : List Char) :
    g.foldl (fun acc row =>
        (row.foldl (fun out2 c => out2 ++ [if c then 'X' else '_']) acc) ++ ['\n']) out =
      out ++ (g.map fun row => (row.map fun c => if c then 'X' else '_') ++ ['\n']).flatten := by
  induction g generalizing out with
  | nil => simp
  | cons row t ih =>
    simp only [List.foldl_cons, List.map_cons, List.flatten_cons]
    rw [foldl_row_chars, ih]
    simp

/-- The rendered text is the concatenation of the rendered rows in order. -/
theorem render_eq_flatten (g : Grid) :
    Board.render g =
      (g.map fun row => (row.map fun c => if c then 'X' else '_') ++ ['\n']).flatten := by
  unfold Board.render
  rw [render_foldl]
  simp

/-- C8: rendering a well-formed `W × H` board emits, row by row from the top,
one `'X'` per alive cell and one `'_'` per dead cell followed by a newline —
nothing else, so the output has exactly `H` lines of `W` characters and total
length `H * (W + 1)`. -/
theorem render_spec (W H : Nat) (g : Grid) (hwf : Board.wf W H g) :
    Board.render g =
      (g.map fun row => (row.map fun c => if c then 'X' else '_') ++ ['\n']).flatten ∧
    (Board.render g).length = H * (W + 1) := by
  obtain ⟨hlen, hrow⟩ := hwf
  refine ⟨render_eq_flatten g, ?_⟩
  rw [render_eq_flatten g, List.length_flatten]
  have hrep : List.map List.length
      (g.map fun row => (row.map fun c => if c then 'X' else '_') ++ ['\n']) =
      List.replicate H (W + 1) := by
    rw [List.eq_replicate_iff]
    constructor
    · rw [List.length_map, List.length_map]
      exact hlen
    · intro b hb
      rw [List.mem_map] at hb
      obtain ⟨l, hl, hbl⟩ := hb
      rw [List.mem_map] at hl
      obtain ⟨row, hrowm, hlrow⟩ := hl
      rw [← hbl, ← hlrow]
      simp [hrow row hrowm]
  rw [hrep, List.sum_replicate, smul_eq_mul]

/-- Witness for C8 at the 2×1 board `[[true, false]]`. -/
theorem render_spec_witness :
    Board.render [[true, false]] =
      (([[true, false]] : Grid).map fun row =>
        (row.map fun c => if c then 'X' else '_') ++ ['\n']).flatten ∧
    (Board.render [[true, false]]).length = 1 * (2 + 1) :=
  render_spec 2 1 [[true, false]] ⟨by decide, by decide⟩

/-- C2: on a well-formed `W × H` board, `get (x, y)` returns `None` exactly
when `x < 0`, `x ≥ W`, `y < 0` or `y ≥ H`, and returns `Some` of the cell's
state whenever `0 ≤ x < W` and `0 ≤ y < H` (it is a total function: no panic). -/
theorem get_bounds (W H : Nat) (g : Grid) (x y : Int)
    (hwf : Board.wf W H g) (hW : W < 2 ^ 31) (hH : H < 2 ^ 31)
    (hx : isI32 x) (hy : isI32 y) :
    (Board.get g x y = none ↔ x < 0 ∨ (W : Int) ≤ x ∨ y < 0 ∨ (H : Int) ≤ y) ∧
    (0 ≤ x → x < (W : Int) → 0 ≤ y → y < (H : Int) → (Board.get g x y).isSome = true) := by
  have h1 := Board.get_isSome_iff_inRange W H g x y hwf hW hH hx hy
  constructor
  · rw [← Option.not_isSome_iff_eq_none, h1]
    omega
  · intro ha hb hc hd
    rw [h1]
    exact ⟨⟨ha, hb⟩, hc, hd⟩

/-- Witness for C2 at the 2×2 board `[[false, true], [true, false]]` and the
out-of-range coordinate `(-1, 0)`. -/
theorem get_bounds_witness :
    (Board.get [[false, true], [true, false]] (-1) 0 = none ↔
      (-1 : Int) < 0 ∨ ((2 : Nat) : Int) ≤ -1 ∨ (0 : Int) < 0 ∨ ((2 : Nat) : Int) ≤ 0) ∧
    (0 ≤ (-1 : Int) → (-1 : Int) < ((2 : Nat) : Int) → 0 ≤ (0 : Int) → (0 : Int) < ((2 : Nat) : Int) →
      (Board.get [[false, true], [true, false]] (-1) 0).isSome = true) :=
  get_bounds 2 2 [[false, true], [true, false]] (-1) 0
    ⟨by decide, by decide⟩ (by decide) (by decide) ⟨by decide, by decide⟩ ⟨by decide, by decide⟩

/-- C3: on a well-formed `W × H` board, `set (x, y, v)` writes `v` into cell
`(x, y)` and returns `Some` when `0 ≤ x < W` and `0 ≤ y < H`; out of range it
returns `None` and the board is left completely unchanged. -/
theorem set_bounds (W H : Nat) (g : Grid) (x y : Int) (v : Bool)
    (hwf : Board.wf W H g) (hW : W < 2 ^ 31) (hH : H < 2 ^ 31)
    (hx : isI32 x) (hy : isI32 y) :
    ((x < 0 ∨ (W : Int) ≤ x ∨ y < 0 ∨ (H : Int) ≤ y) →
      Board.set g x y v = none ∧ Board.setD g x y v = g) ∧
    (0 ≤ x → x < (W : Int) → 0 ≤ y → y < (H : Int) →
      ∃ g', Board.set g x y v = some g' ∧ Board.get g' x y = some v) := by
  have h1 := Board.get_isSome_iff_inRange W H g x y hwf hW hH hx hy
  have h2 := Board.set_isSome_eq g x y v
  constructor
  · intro hout
    have hnone : Board.set g x y v = none := by
      rw [← Option.not_isSome_iff_eq_none, h2, h1]
      omega
    refine ⟨hnone, ?_⟩
    unfold Board.setD
    rw [hnone]
    rfl
  · intro ha hb hc hd
    have hsome : (Board.set g x y v).isSome = true := by
      rw [h2, h1]
      exact ⟨⟨ha, hb⟩, hc, hd⟩
    obtain ⟨g', hg'⟩ := Option.isSome_iff_exists.mp hsome
    refine ⟨g', hg', ?_⟩
    have hsetD : Board.setD g x y v = g' := by
      unfold Board.setD
      rw [hg']
      rfl
    rw [Board.get_eq_getN, ← hsetD, Board.getN_setD]
    rw [if_pos]
    refine ⟨rfl, rfl, ?_⟩
    rw [← Board.get_eq_getN, h1]
    exact ⟨⟨ha, hb⟩, hc, hd⟩

/-- Witness for C3 at the 2×2 board `[[false, false], [false, false]]`,
coordinate `(1, 0)` and value `true`. -/
theorem set_bounds_witness :
    (((1 : Int) < 0 ∨ ((2 : Nat) : Int) ≤ 1 ∨ (0 : Int) < 0 ∨ ((2 : Nat) : Int) ≤ 0) →
      Board.set [[false, false], [false, false]] 1 0 true = none ∧
      Board.setD [[false, false], [false, false]] 1 0 true = [[false, false], [false, false]]) ∧
    (0 ≤ (1 : Int) → (1 : Int) < ((2 : Nat) : Int) → 0 ≤ (0 : Int) → (0 : Int) < ((2 : Nat) : Int) →
      ∃ g', Board.set [[false, false], [false, false]] 1 0 true = some g' ∧
        Board.get g' 1 0 = some true) :=
  set_bounds 2 2 [[false, false], [false, false]] 1 0 true
    ⟨by decide, by decide⟩ (by decide) (by decide) ⟨by decide, by decide⟩ ⟨by decide, by decide⟩

/-! ### Stamping (`blit`) -/

/-- `blit` is the in-order execution of its write list. -/
theorem blit_eq_writeList (g : Grid) (x y : Int) (other : Grid) :
    Board.blit g x y other =
      (Board.writeList x y other).foldl (fun acc w => Board.setD acc w.1 w.2.1 w.2.2) g := by
  unfold Board.blit Board.writeList
  rw [List.foldl_flatten, List.foldl_map]
  simp only [List.foldl_map]

/-- A sequence of discarded `set` calls can never change where lookups
succeed. -/
theorem foldl_setD_isSome (ps : List (Int × Int × Bool)) (g : Grid) (i j : Nat) :
    (Board.getN (ps.foldl (fun acc w => Board.setD acc w.1 w.2.1 w.2.2) g) i j).isSome
      = (Board.getN g i j).isSome := by
  induction ps generalizing g with
  | nil => rfl
  | cons w t ih =>
    simp only [List.foldl_cons]
    rw [ih, Board.isSome_getN_setD]

/-- A cell none of the writes targets is unchanged. -/
theorem foldl_setD_miss (ps : List (Int × Int × Bool)) (g : Grid) (i j : Nat)
    (h : ∀ w ∈ ps, ¬(i = i32ToUsize w.1 ∧ j = i32ToUsize w.2.1)) :
    Board.getN (ps.foldl (fun acc w => Board.setD acc w.1 w.2.1 w.2.2) g) i j
      = Board.getN g i j := by
  revert h
  induction ps generalizing g with
  | nil =>
    intro h
    rfl
  | cons w t ih =>
    intro h
    simp only [List.foldl_cons]
    rw [ih _ fun w' hw' => h w' (List.mem_cons_of_mem _ hw')]
    rw [Board.getN_setD, if_neg]
    intro hcon
    exact h w (List.mem_cons_self w t) ⟨hcon.1, hcon.2.1⟩

/-- A cell some write targets, all targeting writes agreeing on the value
`v`, ends up holding `v` when in range (and stays absent when not). -/
theorem foldl_setD_hit (ps : List (Int × Int × Bool)) (g : Grid) (i j : Nat) (v : Bool)
    (hex : ∃ w ∈ ps, i = i32ToUsize w.1 ∧ j = i32ToUsize w.2.1)
    (hall : ∀ w ∈ ps, (i = i32ToUsize w.1 ∧ j = i32ToUsize w.2.1) → w.2.2 = v) :
    Board.getN (ps.foldl (fun acc w => Board.setD acc w.1 w.2.1 w.2.2) g) i j
      = if (Board.getN g i j).isSome = true then some v else none := by
  revert hex hall
  induction ps generalizing g with
  | nil =>
    intro hex _
    obtain ⟨w, hw, -⟩ := hex
    exact absurd hw (List.not_mem_nil w)
  | cons w t ih =>
    intro hex hall
    simp only [List.foldl_cons]
    by_cases hT : ∃ w' ∈ t, i = i32ToUsize w'.1 ∧ j = i32ToUsize w'.2.1
    · rw [ih (Board.setD g w.1 w.2.1 w.2.2) hT
        fun w' hw' hcon => hall w' (List.mem_cons_of_mem _ hw') hcon]
      rw [Board.isSome_getN_setD]
    · have hw : i = i32ToUsize w.1 ∧ j = i32ToUsize w.2.1 := by
        obtain ⟨w', hw', hcon⟩ := hex
        rcases List.mem_cons.mp hw' with heq | hmem
        · subst heq
          exact hcon
        · exact absurd ⟨w', hmem, hcon⟩ hT
      have hv : w.2.2 = v := hall w (List.mem_cons_self w t) hw
      rw [foldl_setD_miss t _ i j fun w' hw' hcon => hT ⟨w', hw', hcon⟩]
      rw [Board.getN_setD]
      by_cases hs : (Board.getN g i j).isSome = true
      · rw [if_pos ⟨hw.1, hw.2, hs⟩, if_pos hs, hv]
      · rw [if_neg fun hcon => hs hcon.2.2, if_neg hs]
        exact Option.not_isSome_iff_eq_none.mp hs

/-- The write list of `blit`: exactly one entry per source cell, carrying the
translated coordinates and the source value. -/
theorem mem_writeList (x y : Int) (other : Grid) (w : Int × Int × Bool) :
    w ∈ Board.writeList x y other ↔
      ∃ yo row, other.get? yo = some row ∧ ∃ xo c, row.get? xo = some c ∧
        w = (x + usizeToI32 xo, y + usizeToI32 yo, c) := by
  unfold Board.writeList
  rw [List.mem_flatten]
  constructor
  · rintro ⟨l, hl, hwl⟩
    rw [List.mem_map] at hl
    obtain ⟨yr, hyr, rfl⟩ := hl
    obtain ⟨yo, row⟩ := yr
    rw [List.mem_map] at hwl
    obtain ⟨xc, hxc, rfl⟩ := hwl
    obtain ⟨xo, c⟩ := xc
    refine ⟨yo, row, ?_, xo, c, ?_, rfl⟩
    · rw [List.get?_eq_getElem?]
      exact List.mk_mem_enum_iff_getElem?.mp hyr
    · rw [List.get?_eq_getElem?]
      exact List.mk_mem_enum_iff_getElem?.mp hxc
  · rintro ⟨yo, row, hrow, xo, c, hcell, rfl⟩
    rw [List.get?_eq_getElem?] at hrow hcell
    refine ⟨row.enum.map fun xc => (x + usizeToI32 xc.1, y + usizeToI32 yo, xc.2), ?_, ?_⟩
    · rw [List.mem_map]
      exact ⟨(yo, row), List.mk_mem_enum_iff_getElem?.mpr hrow, rfl⟩
    · rw [List.mem_map]
      exact ⟨(xo, c), List.mk_mem_enum_iff_getElem?.mpr hcell, rfl⟩

/-- C4: stamping a well-formed `SW × SH` source at offset `(ox, oy)` writes
source cell `(sx, sy)` to destination cell `(ox + sx, oy + sy)` whenever that
target is on the destination board, silently drops it when it is not, and
leaves every destination cell outside the translated source rectangle
unchanged. (The source board is a read-only argument of the functional
embedding, so it is unchanged by construction.) -/
theorem blit_spec (SW SH : Nat) (g src : Grid) (ox oy : Int)
    (hsrc : Board.wf SW SH src) (hSW : SW < 2 ^ 31) (hSH : SH < 2 ^ 31)
    (hox1 : -(2 ^ 31) ≤ ox) (hox2 : ox + (SW : Int) ≤ 2 ^ 31)
    (hoy1 : -(2 ^ 31) ≤ oy) (hoy2 : oy + (SH : Int) ≤ 2 ^ 31) :
    (∀ sx sy : Nat, sx < SW → sy < SH →
      Board.get (Board.blit g ox oy src) (ox + (sx : Int)) (oy + (sy : Int)) =
        if (Board.get g (ox + (sx : Int)) (oy + (sy : Int))).isSome = true
        then Board.getN src sx sy else none) ∧
    (∀ tx ty : Int, isI32 tx → isI32 ty →
      (tx < ox ∨ ox + (SW : Int) ≤ tx ∨ ty < oy ∨ oy + (SH : Int) ≤ ty) →
      Board.get (Board.blit g ox oy src) tx ty = Board.get g tx ty) := by
  obtain ⟨hslen, hsrow⟩ := hsrc
  constructor
  · intro sx sy hsx hsy
    obtain ⟨row, hrow⟩ := Option.isSome_iff_exists.mp
      ((Board.get?_isSome_iff src sy).mpr (by omega))
    have hrl : row.length = SW := hsrow row (List.get?_mem hrow)
    obtain ⟨c, hcell⟩ := Option.isSome_iff_exists.mp
      ((Board.get?_isSome_iff row sx).mpr (by omega))
    have hgetN : Board.getN src sx sy = some c := by
      unfold Board.getN
      rw [hrow]
      simp only [Option.some_bind]
      exact hcell
    rw [hgetN, blit_eq_writeList, Board.get_eq_getN, Board.get_eq_getN]
    apply foldl_setD_hit
    · refine ⟨(ox + usizeToI32 sx, oy + usizeToI32 sy, c), ?_, ?_⟩
      · rw [mem_writeList]
        exact ⟨sy, row, hrow, sx, c, hcell, rfl⟩
      · rw [usizeToI32_small sx (by omega), usizeToI32_small sy (by omega)]
        exact ⟨rfl, rfl⟩
    · intro w hw hcon
      rw [mem_writeList] at hw
      obtain ⟨yo, row', hrow', xo, c', hcell', rfl⟩ := hw
      have hyo : yo < SH := by
        obtain ⟨h1, -⟩ := List.get?_eq_some.mp hrow'
        omega
      have hxo : xo < SW := by
        obtain ⟨h1, -⟩ := List.get?_eq_some.mp hcell'
        have := hsrow row' (List.get?_mem hrow')
        omega
      rw [usizeToI32_small xo (by omega), usizeToI32_small yo (by omega)] at hcon ⊢
      obtain ⟨h1, h2⟩ := hcon
      have e1 : ox + (sx : Int) = ox + (xo : Int) :=
        i32ToUsize_inj _ _ ⟨by omega, by omega⟩ ⟨by omega, by omega⟩ h1
      have e2 : oy + (sy : Int) = oy + (yo : Int) :=
        i32ToUsize_inj _ _ ⟨by omega, by omega⟩ ⟨by omega, by omega⟩ h2
      have exo : xo = sx := by omega
      have eyo : yo = sy := by omega
      subst exo
      subst eyo
      rw [hrow] at hrow'
      cases hrow'
      rw [hcell] at hcell'
      cases hcell'
      rfl
  · intro tx ty htx hty hout
    rw [blit_eq_writeList, Board.get_eq_getN, Board.get_eq_getN]
    apply foldl_setD_miss
    intro w hw hcon
    rw [mem_writeList] at hw
    obtain ⟨yo, row', hrow', xo, c', hcell', rfl⟩ := hw
    have hyo : yo < SH := by
      obtain ⟨h1, -⟩ := List.get?_eq_some.mp hrow'
      omega
    have hxo : xo < SW := by
      obtain ⟨h1, -⟩ := List.get?_eq_some.mp hcell'
      have := hsrow row' (List.get?_mem hrow')
      omega
    rw [usizeToI32_small xo (by omega), usizeToI32_small yo (by omega)] at hcon
    obtain ⟨h1, h2⟩ := hcon
    have e1 : tx = ox + (xo : Int) :=
      i32ToUsize_inj _ _ htx ⟨by omega, by omega⟩ h1
    have e2 : ty = oy + (yo : Int) :=
      i32ToUsize_inj _ _ hty ⟨by omega, by omega⟩ h2
    omega

/-- Witness for C4: stamping the 1×1 board `[[true]]` at `(0, 1)` onto the
2×2 dead board. -/
theorem blit_spec_witness :
    (∀ sx sy : Nat, sx < 1 → sy < 1 →
      Board.get (Board.blit [[false, false], [false, false]] 0 1 [[true]])
          (0 + (sx : Int)) (1 + (sy : Int)) =
        if (Board.get [[false, false], [false, false]] (0 + (sx : Int)) (1 + (sy : Int))).isSome = true
        then Board.getN [[true]] sx sy else none) ∧
    (∀ tx ty : Int, isI32 tx → isI32 ty →
      (tx < 0 ∨ 0 + ((1 : Nat) : Int) ≤ tx ∨ ty < 1 ∨ 1 + ((1 : Nat) : Int) ≤ ty) →
      Board.get (Board.blit [[false, false], [false, false]] 0 1 [[true]]) tx ty =
        Board.get [[false, false], [false, false]] tx ty) :=
  blit_spec 1 1 [[false, false], [false, false]] [[true]] 0 1
    ⟨by decide, by decide⟩ (by decide) (by decide)
    (by decide) (by decide) (by decide) (by decide)

end Life
